import Mathlib

/-!
Shallow embedding of the mcap_analyzer core (mcap_parser.py and the
analysis package) and proofs about the behaviour of its operations.

Python values flowing through `TaskProcessor` are modelled by `PyVal`;
machine integers decoded from byte slices are modelled with `ℤ`/`ℕ` and
explicit two's-complement wrapping; Python floats are modelled by `ℚ`
(their IEEE bit decoding is exact for finite values, with a separate
constructor for infinities and NaN).  Fallible code returns `Option`
(per-message skips: a Python `None` result) or `Except String`
(a raised exception).
-/

namespace McapAnalyzer

/-- Model of the Python values handled by the analyzer: numbers
(int and float collapsed into `ℚ`), strings, `bytes` objects
(elements are in `[0, 256)` by construction), lists / numeric arrays,
decoded-message objects (attribute → value), and the non-finite floats
produced by IEEE decoding (infinities and NaN). -/
inductive PyVal where
  | num (q : ℚ)
  | str (s : String)
  | bytes (bs : List ℕ)
  | list (xs : List PyVal)
  | obj (fields : List (String × PyVal))
  | fspecial (neg : Bool) (isNan : Bool)

/-- Association-list update mirroring Python `dict` assignment `d[k] = v`:
replaces the value of the first matching key, else appends the binding. -/
def insertAssoc {α : Type} : List (String × α) → String → α → List (String × α)
  | [], k, v => [(k, v)]
  | (k', v') :: rest, k, v =>
    if k' = k then (k, v) :: rest else (k', v') :: insertAssoc rest k v

/-- Association-list lookup mirroring Python `dict.get`. -/
def lookupA {α : Type} : List (String × α) → String → Option α
  | [], _ => none
  | (k, v) :: rest, f => if f = k then some v else lookupA rest f

/-! ### Python string primitives

The Python string methods used by the parser (`str.split`, `str.strip`,
`str.replace`) are embedded directly as character-list scanners; the fuel
argument is set to the input length by the wrappers, which makes each
scanner total and fully evaluable. -/

/-- Loop of `str.split(sep)` for a non-empty separator: at each position
a separator occurrence ends the current piece. -/
def pySplitGo : ℕ → List Char → List Char → List Char → List (List Char)
  | _, _, acc, [] => [acc.reverse]
  | 0, _, acc, l => [acc.reverse ++ l]
  | fuel + 1, sep, acc, l@(c :: rest) =>
    if sep.isPrefixOf l then
      acc.reverse :: pySplitGo fuel sep [] (l.drop sep.length)
    else pySplitGo fuel sep (c :: acc) rest

/-- Python `s.split(sep)` (an empty separator raises in Python and does
not occur here). -/
def pySplit (s sep : String) : List String :=
  if sep.toList = [] then [s]
  else (pySplitGo s.toList.length sep.toList [] s.toList).map String.mk

/-- Python `s.strip()`: surrounding whitespace removed. -/
def pyStrip (s : String) : String :=
  String.mk ((((s.toList.dropWhile Char.isWhitespace).reverse).dropWhile
    Char.isWhitespace).reverse)

/-- Loop of `s.replace(pat, rep)`: leftmost non-overlapping occurrences. -/
def pyReplaceGo : ℕ → List Char → List Char → List Char → List Char
  | _, _, _, [] => []
  | 0, _, _, l => l
  | fuel + 1, pat, rep, l@(c :: rest) =>
    if pat.isPrefixOf l ∧ pat ≠ [] then rep ++ pyReplaceGo fuel pat rep (l.drop pat.length)
    else c :: pyReplaceGo fuel pat rep rest

/-- Python `s.replace(pat, rep)` for a non-empty pattern (an empty
pattern does not occur in the analysed calls). -/
def pyReplace (s pat rep : String) : String :=
  String.mk (pyReplaceGo s.toList.length pat.toList rep.toList s.toList)

/-! ### Regex scanners of `TaskProcessor.__init__` -/

/-- One step of `re.sub(r'\([^)]+\)', '', s)` as a character scanner.
The first argument buffers (reversed) the characters seen since an
as-yet-unclosed `(`: on a `)` with a non-empty buffer the whole group is
deleted; `()` has no match (the `+` requires at least one character) and
is emitted verbatim; an unclosed `(` at the end of input is emitted. -/
def stripLoop : Option (List Char) → List Char → List Char
  | none, [] => []
  | some buf, [] => '(' :: buf.reverse
  | none, c :: rest =>
    if c = '(' then stripLoop (some []) rest else c :: stripLoop none rest
  | some buf, c :: rest =>
    if c = ')' then
      if buf = [] then '(' :: ')' :: stripLoop none rest
      else stripLoop none rest
    else stripLoop (some (c :: buf)) rest

/-- `self.expression = re.sub(r'\([^)]+\)', '', self.parse_string)`. -/
def stripDirectiveGroups (s : String) : String :=
  String.mk (stripLoop none s.toList)

/-- Character class `\w` of the `re` module (ASCII identifiers). -/
def isWordChar (c : Char) : Bool :=
  c.isAlphanum || c = '_'

/-- Character class `[\w\.]` used for potential field names. -/
def isWordDotChar (c : Char) : Bool :=
  isWordChar c || c = '.'

/-- Scanner for `re.findall(r'([a-zA-Z_][\w\.]*)', s)`: the first argument
buffers (reversed) the identifier token currently being read. -/
def identsLoop : Option (List Char) → List Char → List (List Char)
  | none, [] => []
  | some tok, [] => [tok.reverse]
  | none, c :: rest =>
    if c.isAlpha || c = '_' then identsLoop (some [c]) rest
    else identsLoop none rest
  | some tok, c :: rest =>
    if isWordDotChar c then identsLoop (some (c :: tok)) rest
    else tok.reverse :: identsLoop none rest

/-- All potential field names of a parse string
(`re.findall(r'([a-zA-Z_][\w\.]*)', self.parse_string)`). -/
def findIdents (s : String) : List String :=
  (identsLoop none s.toList).map String.mk

/-- `re.search(re.escape(field) + r'\((.*?)\)', s)`: finds the first
occurrence of the literal `field` followed by `(`, and captures the lazy
group, i.e. the characters up to the first following `)`.  If no `)`
follows the first occurrence then no later occurrence can be closed
either, so the whole search fails. -/
def searchDirective (field : List Char) : List Char → Option (List Char)
  | [] => none
  | l@(_ :: rest) =>
    if (field ++ ['(']).isPrefixOf l then
      let after := l.drop (field.length + 1)
      let body := after.takeWhile (· ≠ ')')
      if body.length < after.length then some body
      else searchDirective field rest
    else searchDirective field rest

/-- The directive text resolved for one field of the parse string: the
captured group of `field\((.*?)\)` when the search succeeds, else
`"default"`. -/
def directiveFor (field : String) (ps : String) : String :=
  match searchDirective field.toList ps.toList with
  | some body => String.mk body
  | none => "default"

/-- Loop body of `TaskProcessor._extract_directives`: each configured
field that occurs among the potential field names receives its resolved
directive; dict assignment is mirrored by `insertAssoc`. -/
def extractDirectivesAux (pot : List String) (ps : String) :
    List String → List (String × String) → List (String × String)
  | [], acc => acc
  | f :: rest, acc =>
    if pot.contains f then
      extractDirectivesAux pot ps rest (insertAssoc acc f (directiveFor f ps))
    else
      extractDirectivesAux pot ps rest acc

/-- `TaskProcessor._extract_directives`. -/
def extractDirectives (fieldNames : List String) (ps : String) :
    List (String × String) :=
  extractDirectivesAux (findIdents ps) ps fieldNames []

/-! ### Directive matching and value coercion (`TaskProcessor._apply_directive`) -/

/-- Numeric value of a decimal digit string. -/
def digitsToNat (ds : List Char) : ℕ :=
  ds.foldl (fun n c => 10 * n + (c.toNat - '0'.toNat)) 0

/-- `re.fullmatch(r'type:(\w+)', directive)`: the captured type name. -/
def matchTypeDirective (s : String) : Option String :=
  let l := s.toList
  if "type:".toList.isPrefixOf l then
    let w := l.drop 5
    if w ≠ [] ∧ w.all isWordChar then some (String.mk w) else none
  else none

/-- `re.fullmatch(r'byte:(\d+)-(\d+)(?:,type:(\w+))?', directive)`:
start, length and the optional type name. -/
def matchByteDirective (s : String) : Option (ℕ × ℕ × Option String) :=
  let l := s.toList
  if "byte:".toList.isPrefixOf l then
    let r1 := l.drop 5
    let d1 := r1.takeWhile Char.isDigit
    let r2 := r1.drop d1.length
    if d1 = [] then none else
    match r2 with
    | '-' :: r3 =>
      let d2 := r3.takeWhile Char.isDigit
      let r4 := r3.drop d2.length
      if d2 = [] then none else
      match r4 with
      | [] => some (digitsToNat d1, digitsToNat d2, none)
      | _ =>
        if ",type:".toList.isPrefixOf r4 then
          let w := r4.drop 6
          if w ≠ [] ∧ w.all isWordChar then
            some (digitsToNat d1, digitsToNat d2, some (String.mk w))
          else none
        else none
    | _ => none
  else none

/-- Kinds of fixed-width values in the `format_map` of the byte directive. -/
inductive FmtKind where
  | unsigned
  | signed
  | flt
deriving DecidableEq

/-- The `format_map` of `_apply_directive`: supported type names with the
byte width and kind of their little-endian struct format. -/
def formatMap : String → Option (ℕ × FmtKind)
  | "float64" => some (8, .flt)
  | "float32" => some (4, .flt)
  | "int64" => some (8, .signed)
  | "uint64" => some (8, .unsigned)
  | "int32" => some (4, .signed)
  | "uint32" => some (4, .unsigned)
  | "int16" => some (2, .signed)
  | "uint16" => some (2, .unsigned)
  | "int8" => some (1, .signed)
  | "uint8" => some (1, .unsigned)
  | _ => none

/-- Little-endian value of a byte string. -/
def leNat (bs : List ℕ) : ℕ :=
  bs.foldr (fun b acc => b + 256 * acc) 0

/-- Exact decoding of an IEEE-754 bit pattern with the given exponent and
mantissa widths: finite values become their exact rational value,
infinities and NaN become `PyVal.fspecial`. -/
def decodeFloatBits (expBits mantBits bits : ℕ) : PyVal :=
  let sgn := bits / 2 ^ (expBits + mantBits)
  let e := (bits / 2 ^ mantBits) % 2 ^ expBits
  let m := bits % 2 ^ mantBits
  let neg := sgn % 2 = 1
  if e = 2 ^ expBits - 1 then .fspecial (decide neg) (decide (m ≠ 0))
  else
    let bias : ℤ := 2 ^ (expBits - 1) - 1
    let q : ℚ :=
      if e = 0 then (m : ℚ) * (2 : ℚ) ^ (1 - bias - (mantBits : ℤ))
      else ((2 ^ mantBits + m : ℕ) : ℚ) * (2 : ℚ) ^ ((e : ℤ) - bias - (mantBits : ℤ))
    .num (if neg then -q else q)

/-- `struct.unpack(format_map[type_name], byte_slice)[0]` for a slice whose
length equals the format width; `struct.error` is raised otherwise. -/
def structUnpack (width : ℕ) (kind : FmtKind) (bs : List ℕ) :
    Except String PyVal :=
  if bs.length ≠ width then
    .error "struct.error: unpack requires a buffer of matching length"
  else
    let n := leNat bs
    match kind with
    | .unsigned => .ok (.num n)
    | .signed =>
      .ok (.num (if n < 2 ^ (8 * width - 1) then (n : ℤ) else (n : ℤ) - 2 ^ (8 * width)))
    | .flt =>
      if width = 8 then .ok (decodeFloatBits 11 52 n)
      else .ok (decodeFloatBits 8 23 n)

/-- `bytes(xs)` on a Python list/array slice: every element must be an
integer in `[0, 256)`; otherwise `bytes()` raises. -/
def listToBytes : List PyVal → Except String (List ℕ)
  | [] => .ok []
  | .num q :: rest =>
    if q.den = 1 ∧ 0 ≤ q.num ∧ q.num < 256 then
      (listToBytes rest).map (fun bs => q.num.toNat :: bs)
    else .error "bytes() argument out of range or not an int"
  | _ :: _ => .error "bytes() argument must be a sequence of ints"

/-- Shared tail of the byte directive: the already-sliced byte string is
checked against the requested length (a short slice is a logged skip,
i.e. `None`), then either returned raw or decoded via `format_map`;
an unsupported type name raises `ValueError`. -/
def decodeSlice (slice : List ℕ) (len : ℕ) (tname : Option String) :
    Except String (Option PyVal) :=
  if slice.length < len then .ok none
  else
    match tname with
    | none => .ok (some (.bytes slice))
    | some t =>
      match formatMap t with
      | none => .error ("Unsupported type '" ++ t ++ "' specified in 'byte' directive.")
      | some (width, kind) => (structUnpack width kind slice).map some

/-- Branch of `_apply_directive` for a matched `byte:start-length[,type:T]`
directive: the raw value must be `bytes` or a list/array (else a logged
skip, i.e. `None`); the Python slice `raw[start : start+length]` clips at
the end of the sequence. -/
def byteRangeApply (raw : PyVal) (start len : ℕ) (tname : Option String) :
    Except String (Option PyVal) :=
  match raw with
  | .bytes bs => decodeSlice ((bs.drop start).take len) len tname
  | .list xs =>
    match listToBytes ((xs.drop start).take len) with
    | .error e => .error e
    | .ok slice => decodeSlice slice len tname
  | _ => .ok none

/-- Width in bits of the integer dtypes accepted by the `type:` directive,
with their signedness. -/
def intDtypeWidth : String → Option (ℕ × Bool)
  | "int8" => some (8, true)
  | "int16" => some (16, true)
  | "int32" => some (32, true)
  | "int64" => some (64, true)
  | "uint8" => some (8, false)
  | "uint16" => some (16, false)
  | "uint32" => some (32, false)
  | "uint64" => some (64, false)
  | _ => none

/-- Truncation of a rational toward zero (C-style float-to-int cast). -/
def truncQ (q : ℚ) : ℤ :=
  if 0 ≤ q then ⌊q⌋ else ⌈q⌉

/-- Two's-complement wrap of an integer into a `w`-bit dtype. -/
def wrapInt (w : ℕ) (sgn : Bool) (n : ℤ) : ℤ :=
  let m := n.emod (2 ^ w)
  if sgn ∧ 2 ^ (w - 1) ≤ m then m - 2 ^ w else m

/-- `pd.Series([raw_value]).astype(type_name).iloc[0]` for the scalar
values reaching the `type:` directive: numeric scalars are truncated and
wrapped for integer dtypes and passed through for float dtypes (float32
narrowing is not modelled — no analysed behaviour depends on it); an
unrecognized dtype or a non-numeric scalar raises. -/
def astypeCast (tname : String) (raw : PyVal) : Except String (Option PyVal) :=
  match raw with
  | .num q =>
    match intDtypeWidth tname with
    | some (w, sgn) => .ok (some (.num (wrapInt w sgn (truncQ q))))
    | none =>
      if tname = "float64" ∨ tname = "float32" ∨ tname = "float" then
        .ok (some (.num q))
      else .error ("data type '" ++ tname ++ "' not understood")
  | _ => .error "astype: cannot cast non-numeric scalar"

/-- `TaskProcessor._apply_directive` (the caller guarantees
`raw_value is not None`): `default` passes the raw value through, a
`type:` match casts it, a `byte:` match slices and decodes it, and any
other directive string raises `ValueError`. -/
def applyDirective (raw : PyVal) (directive : String) :
    Except String (Option PyVal) :=
  if directive = "default" then .ok (some raw)
  else
    match matchTypeDirective directive with
    | some tname => astypeCast tname raw
    | none =>
      match matchByteDirective directive with
      | some (start, len, tname) => byteRangeApply raw start len tname
      | none => .error ("Unknown parsing directive: '" ++ directive ++ "'")

/-! ### Field resolution (`TaskProcessor._get_field_value`) -/

/-- `int(index_text)`: surrounding whitespace and an optional sign are
accepted, anything else raises `ValueError`. -/
def parseIntStr (s : String) : Option ℤ :=
  let t := (pyStrip s).toList
  match t with
  | '-' :: ds => if ds ≠ [] ∧ ds.all Char.isDigit then some (-(digitsToNat ds : ℤ)) else none
  | '+' :: ds => if ds ≠ [] ∧ ds.all Char.isDigit then some (digitsToNat ds : ℤ) else none
  | ds => if ds ≠ [] ∧ ds.all Char.isDigit then some (digitsToNat ds : ℤ) else none

/-- Splitting of one path segment: `attr_name, index = attr[:-1].split('[')`
applies when the segment contains `[` and ends with `]`; the two-element
unpacking raises `ValueError` (uncaught) when the segment has more than
one `[`. -/
def splitIndexAttr (attr : String) : Except String (String × Option String) :=
  if attr.toList.contains '[' ∧ attr.toList.getLast? = some ']' then
    match pySplit (String.mk attr.toList.dropLast) "[" with
    | [name, idx] => .ok (name, some idx)
    | _ => .error "ValueError: too many values to unpack"
  else .ok (attr, none)

/-- `getattr(value, name)`: attribute lookup on a decoded-message object;
an `AttributeError` (missing attribute, or a value without attributes) is
caught by `_get_field_value` and becomes `None`. -/
def pyGetattr (v : PyVal) (name : String) : Option PyVal :=
  match v with
  | .obj fields => lookupA fields name
  | _ => none

/-- `value[i]` for the indexed path segments: sequences accept Python's
negative indices and raise `IndexError` (caught, hence `.ok none`) when
out of range; indexing a number or an object raises `TypeError`, which
`_get_field_value` does not catch. -/
def pyIndex (v : PyVal) (i : ℤ) : Except String (Option PyVal) :=
  let idx : ℤ → ℕ → Option ℕ := fun i len =>
    if 0 ≤ i then (if i < (len : ℤ) then some i.toNat else none)
    else (if 0 ≤ (len : ℤ) + i then some ((len : ℤ) + i).toNat else none)
  match v with
  | .list xs =>
    match idx i xs.length with
    | some n => .ok (xs.get? n)
    | none => .ok none
  | .bytes bs =>
    match idx i bs.length with
    | some n => .ok ((bs.get? n).map (fun b => .num b))
    | none => .ok none
  | .str s =>
    match idx i s.length with
    | some n => .ok ((s.toList.get? n).map (fun c => .str (String.mk [c])))
    | none => .ok none
  | _ => .error "TypeError: object is not subscriptable"

/-- Loop of `_get_field_value` over the dot-separated path segments:
`.ok none` is a caught `AttributeError`/`IndexError`/`KeyError`
(logged, value `None`), `.error` an uncaught exception. -/
def resolveAttrs (v : PyVal) : List String → Except String (Option PyVal)
  | [] => .ok (some v)
  | attr :: rest =>
    match splitIndexAttr attr with
    | .error e => .error e
    | .ok (name, none) =>
      match pyGetattr v name with
      | none => .ok none
      | some v' => resolveAttrs v' rest
    | .ok (name, some idxText) =>
      match parseIntStr idxText with
      | none => .error "ValueError: invalid literal for int()"
      | some i =>
        match pyGetattr v name with
        | none => .ok none
        | some v' =>
          match pyIndex v' i with
          | .error e => .error e
          | .ok none => .ok none
          | .ok (some v'') => resolveAttrs v'' rest

/-- `TaskProcessor._get_field_value`. -/
def getFieldValue (msg : PyVal) (fieldName : String) : Except String (Option PyVal) :=
  resolveAttrs msg (pySplit fieldName ".")

/-! ### Expression evaluation

`process_message` hands the bare expression to an `asteval.Interpreter`
whose symbol table is replaced by the parsed field values, so only the
arithmetic-expression fragment over those identifiers can succeed; every
failure (syntax error, unknown identifier, division by zero, operand of
the wrong type) makes `eval` return `None`.  The fragment is embedded as
a lexer and recursive-descent evaluator over `ℚ`-valued numbers with
Python's operator semantics. -/

/-- Tokens of the arithmetic expression grammar. -/
inductive Tok where
  | num (q : ℚ)
  | ident (s : String)
  | plus
  | minus
  | star
  | slash
  | dslash
  | percent
  | dstar
  | lparen
  | rparen
deriving DecidableEq

/-- Value of a numeric literal with integer and fractional digit parts. -/
def mkNumLit (ip fp : List Char) : ℚ :=
  (digitsToNat ip : ℚ) + (digitsToNat fp : ℚ) / 10 ^ fp.length

/-- Fueled lexer for the expression fragment; each step consumes at least
one character, so fuel equal to the input length suffices.  A character
outside the fragment is a syntax error (`none`). -/
def lexF : ℕ → List Char → Option (List Tok)
  | _, [] => some []
  | 0, _ :: _ => none
  | fuel + 1, c :: rest =>
    if c.isWhitespace then lexF fuel rest
    else if c.isAlpha || c = '_' then
      let tok := c :: rest.takeWhile isWordChar
      (lexF fuel (rest.dropWhile isWordChar)).map (Tok.ident (String.mk tok) :: ·)
    else if c.isDigit then
      let ip := c :: rest.takeWhile Char.isDigit
      match rest.dropWhile Char.isDigit with
      | '.' :: r2 =>
        let fp := r2.takeWhile Char.isDigit
        (lexF fuel (r2.dropWhile Char.isDigit)).map (Tok.num (mkNumLit ip fp) :: ·)
      | r => (lexF fuel r).map (Tok.num (mkNumLit ip []) :: ·)
    else if c = '*' then
      match rest with
      | '*' :: r2 => (lexF fuel r2).map (Tok.dstar :: ·)
      | _ => (lexF fuel rest).map (Tok.star :: ·)
    else if c = '/' then
      match rest with
      | '/' :: r2 => (lexF fuel r2).map (Tok.dslash :: ·)
      | _ => (lexF fuel rest).map (Tok.slash :: ·)
    else if c = '+' then (lexF fuel rest).map (Tok.plus :: ·)
    else if c = '-' then (lexF fuel rest).map (Tok.minus :: ·)
    else if c = '%' then (lexF fuel rest).map (Tok.percent :: ·)
    else if c = '(' then (lexF fuel rest).map (Tok.lparen :: ·)
    else if c = ')' then (lexF fuel rest).map (Tok.rparen :: ·)
    else none

/-- Token stream of an expression string. -/
def lexTokens (s : String) : Option (List Tok) :=
  lexF s.toList.length s.toList

/-- Python `+` on the values reachable here: numeric addition and
sequence concatenation; other operand combinations fail with a caught
`TypeError`. -/
def pyAdd : PyVal → PyVal → Option PyVal
  | .num a, .num b => some (.num (a + b))
  | .str a, .str b => some (.str (a ++ b))
  | .bytes a, .bytes b => some (.bytes (a ++ b))
  | .list a, .list b => some (.list (a ++ b))
  | _, _ => none

/-- Python `-` (binary): numbers only. -/
def pySub : PyVal → PyVal → Option PyVal
  | .num a, .num b => some (.num (a - b))
  | _, _ => none

/-- Python `*`: numbers only (sequence repetition does not occur in the
analysed expressions). -/
def pyMul : PyVal → PyVal → Option PyVal
  | .num a, .num b => some (.num (a * b))
  | _, _ => none

/-- Python `/`: true division; division by zero is a caught
`ZeroDivisionError`. -/
def pyDiv : PyVal → PyVal → Option PyVal
  | .num a, .num b => if b = 0 then none else some (.num (a / b))
  | _, _ => none

/-- Python `//`: floor division. -/
def pyFloorDiv : PyVal → PyVal → Option PyVal
  | .num a, .num b => if b = 0 then none else some (.num (⌊a / b⌋ : ℤ))
  | _, _ => none

/-- Python `%`: remainder with the sign of the divisor,
`a - b * ⌊a / b⌋`. -/
def pyMod : PyVal → PyVal → Option PyVal
  | .num a, .num b => if b = 0 then none else some (.num (a - b * ⌊a / b⌋))
  | _, _ => none

/-- Python `**` for the rational-valued operands occurring here: integer
exponents are exact; `0` to a negative power is a caught
`ZeroDivisionError`; non-integer exponents (real roots) are outside the
analysed fragment. -/
def pyPow : PyVal → PyVal → Option PyVal
  | .num a, .num b =>
    if b.den = 1 then
      if 0 ≤ b.num then some (.num (a ^ b.num.toNat))
      else if a = 0 then none
      else some (.num (a⁻¹ ^ (-b.num).toNat))
    else none
  | _, _ => none

/-- Python unary `-`: numbers only. -/
def pyNeg : PyVal → Option PyVal
  | .num a => some (.num (-a))
  | _ => none

/-- Python unary `+`: numbers only. -/
def pyPos : PyVal → Option PyVal
  | .num a => some (.num a)
  | _ => none

/-- Evaluation environment: the interpreter's replaced symbol table. -/
abbrev Env := List (String × PyVal)

mutual

/-- `expr := term (('+' | '-') term)*`, evaluated left to right. -/
def parseExprF : ℕ → Env → List Tok → Option (PyVal × List Tok)
  | 0, _, _ => none
  | fuel + 1, env, ts =>
    match parseTermF fuel env ts with
    | none => none
    | some (v, rest) => parseAddLoopF fuel env v rest

/-- Left-associative chain of `+`/`-`. -/
def parseAddLoopF : ℕ → Env → PyVal → List Tok → Option (PyVal × List Tok)
  | 0, _, _, _ => none
  | fuel + 1, env, acc, ts =>
    match ts with
    | .plus :: rest =>
      match parseTermF fuel env rest with
      | none => none
      | some (v, rest') =>
        match pyAdd acc v with
        | none => none
        | some w => parseAddLoopF fuel env w rest'
    | .minus :: rest =>
      match parseTermF fuel env rest with
      | none => none
      | some (v, rest') =>
        match pySub acc v with
        | none => none
        | some w => parseAddLoopF fuel env w rest'
    | _ => some (acc, ts)

/-- `term := unary (('*' | '/' | '//' | '%') unary)*`. -/
def parseTermF : ℕ → Env → List Tok → Option (PyVal × List Tok)
  | 0, _, _ => none
  | fuel + 1, env, ts =>
    match parseUnaryF fuel env ts with
    | none => none
    | some (v, rest) => parseMulLoopF fuel env v rest

/-- Left-associative chain of `*`, `/`, `//`, `%`. -/
def parseMulLoopF : ℕ → Env → PyVal → List Tok → Option (PyVal × List Tok)
  | 0, _, _, _ => none
  | fuel + 1, env, acc, ts =>
    match ts with
    | .star :: rest =>
      match parseUnaryF fuel env rest with
      | none => none
      | some (v, rest') =>
        match pyMul acc v with
        | none => none
        | some w => parseMulLoopF fuel env w rest'
    | .slash :: rest =>
      match parseUnaryF fuel env rest with
      | none => none
      | some (v, rest') =>
        match pyDiv acc v with
        | none => none
        | some w => parseMulLoopF fuel env w rest'
    | .dslash :: rest =>
      match parseUnaryF fuel env rest with
      | none => none
      | some (v, rest') =>
        match pyFloorDiv acc v with
        | none => none
        | some w => parseMulLoopF fuel env w rest'
    | .percent :: rest =>
      match parseUnaryF fuel env rest with
      | none => none
      | some (v, rest') =>
        match pyMod acc v with
        | none => none
        | some w => parseMulLoopF fuel env w rest'
    | _ => some (acc, ts)

/-- `unary := ('+' | '-') unary | power` (unary sign binds looser than
`**` on its left, as in Python). -/
def parseUnaryF : ℕ → Env → List Tok → Option (PyVal × List Tok)
  | 0, _, _ => none
  | fuel + 1, env, ts =>
    match ts with
    | .minus :: rest =>
      match parseUnaryF fuel env rest with
      | none => none
      | some (v, rest') => (pyNeg v).map ((·, rest'))
    | .plus :: rest =>
      match parseUnaryF fuel env rest with
      | none => none
      | some (v, rest') => (pyPos v).map ((·, rest'))
    | _ => parsePowF fuel env ts

/-- `power := atom ('**' unary)?`, right associative. -/
def parsePowF : ℕ → Env → List Tok → Option (PyVal × List Tok)
  | 0, _, _ => none
  | fuel + 1, env, ts =>
    match parseAtomF fuel env ts with
    | none => none
    | some (v, rest) =>
      match rest with
      | .dstar :: rest2 =>
        match parseUnaryF fuel env rest2 with
        | none => none
        | some (w, rest3) => (pyPow v w).map ((·, rest3))
      | _ => some (v, rest)

/-- `atom := number | identifier | '(' expr ')'`; an identifier missing
from the symbol table is a caught `NameError`. -/
def parseAtomF : ℕ → Env → List Tok → Option (PyVal × List Tok)
  | 0, _, _ => none
  | fuel + 1, env, ts =>
    match ts with
    | .num q :: rest => some (.num q, rest)
    | .ident s :: rest => (lookupA env s).map ((·, rest))
    | .lparen :: rest =>
      match parseExprF fuel env rest with
      | none => none
      | some (v, .rparen :: rest') => some (v, rest')
      | some _ => none
    | _ => none

end

/-- `self.aeval.eval(safe_expression)` with the symbol table replaced by
`env`: `None` on any lexical, syntactic or evaluation failure, and also
for an empty expression (an empty program evaluates to `None`). -/
def evalExpr (s : String) (env : Env) : Option PyVal :=
  match lexTokens s with
  | none => none
  | some ts =>
    match parseExprF ((ts.length + 1) * 8) env ts with
    | some (v, []) => some v
    | _ => none

/-! ### `TaskProcessor` -/

/-- One analysis task configuration (the keys read by
`TaskProcessor.__init__`). -/
structure AnalysisTask where
  id : String
  topic_name : String
  field_names : String
  parse_string : String

/-- State of a constructed `TaskProcessor`. -/
structure TaskProcessor where
  task_id : String
  topic_name : String
  field_names : List String
  parse_string : String
  expression : String
  directives : List (String × String)

/-- `TaskProcessor.__init__`: splits and strips the field names, strips
every parenthesized group from the parse string to obtain the expression,
and extracts the per-field directives.  Construction performs no
validation of directive contents and cannot fail. -/
def mkTaskProcessor (t : AnalysisTask) : TaskProcessor :=
  let fns := (pySplit t.field_names ",").map pyStrip
  { task_id := t.id
    topic_name := t.topic_name
    field_names := fns
    parse_string := t.parse_string
    expression := stripDirectiveGroups t.parse_string
    directives := extractDirectives fns t.parse_string }

/-- `field.replace('.', '_')`. -/
def safeFieldName (f : String) : String :=
  pyReplace f "." "_"

/-- The expression with every field name rewritten to its symbol-table
form, one `str.replace` per configured field. -/
def safeExpression (tp : TaskProcessor) : String :=
  tp.field_names.foldl (fun e f => pyReplace e f (safeFieldName f)) tp.expression

/-- One output row (`process_message`'s returned dict): the message
timestamp, the raw value recorded per field, and the expression value
(`None` when evaluation failed). -/
structure Row where
  mcap_timestamp_ns : ℤ
  raws : List (String × Option PyVal)
  parsed_value : Option PyVal

/-- Field loop of `process_message`: resolves and coerces each configured
field in order, accumulating the raw-value record and the symbol table;
`.ok none` is a logged per-message skip, `.error` an uncaught exception
from `_get_field_value` or `_apply_directive`. -/
def processFields (tp : TaskProcessor) (msg : PyVal) :
    List String → List (String × Option PyVal) → Env →
    Except String (Option (List (String × Option PyVal) × Env))
  | [], raws, env => .ok (some (raws, env))
  | f :: rest, raws, env =>
    match getFieldValue msg f with
    | .error e => .error e
    | .ok raw? =>
      let raws' := insertAssoc raws ("raw_" ++ f) raw?
      match raw? with
      | none => .ok none
      | some raw =>
        match lookupA tp.directives f with
        | none => .ok none
        | some d =>
          match applyDirective raw d with
          | .error e => .error e
          | .ok none => .ok none
          | .ok (some pv) =>
            processFields tp msg rest raws' (insertAssoc env (safeFieldName f) pv)

/-- `TaskProcessor.process_message`: a row is returned exactly when every
field resolves and coerces; the expression is then evaluated and its
result — `None` included — is stored as `parsed_value`. -/
def processMessage (tp : TaskProcessor) (ts : ℤ) (msg : PyVal) :
    Except String (Option Row) :=
  match processFields tp msg tp.field_names [] [] with
  | .error e => .error e
  | .ok none => .ok none
  | .ok (some (raws, env)) =>
    .ok (some ⟨ts, raws, evalExpr (safeExpression tp) env⟩)

/-! ### `McapReader` (the dispatcher) -/

/-- One decoded message as yielded by the reader: topic, log time and
decoded body. -/
structure MessageRec where
  topic : String
  log_time : ℤ
  msg : PyVal

/-- One input file, already ordered: either its decoded message stream or
a read failure. -/
abbrev FileData := Except String (List MessageRec)

/-- Accumulated rows per task id. -/
abbrev Results := List (String × List Row)

/-- Step of `McapReader._map_topics_to_processors`: appends the processor
to its topic's list, creating the entry on first sight. -/
def addProc : List (String × List TaskProcessor) → TaskProcessor →
    List (String × List TaskProcessor)
  | [], p => [(p.topic_name, [p])]
  | (t, l) :: rest, p =>
    if t = p.topic_name then (t, l ++ [p]) :: rest else (t, l) :: addProc rest p

/-- `McapReader._map_topics_to_processors`. -/
def topicToProcessors (ps : List TaskProcessor) : List (String × List TaskProcessor) :=
  ps.foldl addProc []

/-- `task_results = {processor.task_id: [] for processor in ...}`. -/
def initResults (ps : List TaskProcessor) : Results :=
  ps.foldl (fun r p => insertAssoc r p.task_id []) []

/-- Appends a produced row to its task's bucket. -/
def appendRow (r : Results) (tid : String) (row : Row) : Results :=
  match r with
  | [] => []
  | (k, rows) :: rest =>
    if k = tid then (k, rows ++ [row]) :: rest else (k, rows) :: appendRow rest tid row

/-- Inner loop of `process_files`: every processor registered for the
message's topic processes it, non-null rows are accumulated; an uncaught
exception stops the file's processing but keeps the rows already
accumulated (the per-file handler catches it). -/
def dispatchList : List TaskProcessor → ℤ → PyVal → Results → Results × Option String
  | [], _, _, res => (res, none)
  | p :: rest, ts, msg, res =>
    match processMessage p ts msg with
    | .error e => (res, some e)
    | .ok none => dispatchList rest ts msg res
    | .ok (some row) => dispatchList rest ts msg (appendRow res p.task_id row)

/-- Message loop of `process_files` for one file. -/
def processMessages (tmap : List (String × List TaskProcessor)) :
    List MessageRec → Results → Results × Option String
  | [], res => (res, none)
  | m :: rest, res =>
    match dispatchList ((lookupA tmap m.topic).getD []) m.log_time m.msg res with
    | (res', some e) => (res', some e)
    | (res', none) => processMessages tmap rest res'

/-- `McapReader.process_files` over an ordered file list: a file whose
read fails is logged and skipped, every other file still contributes,
and partial results are kept. -/
def processFiles (ps : List TaskProcessor) (files : List FileData) : Results :=
  let tmap := topicToProcessors ps
  files.foldl
    (fun res f =>
      match f with
      | .error _ => res
      | .ok msgs => (processMessages tmap msgs res).1)
    (initResults ps)

/-! ### Analyzers -/

/-- Summary statistics of one derived series, as produced by
`TimestampAnalyzer._calculate_stats`; `none` models a NaN field.  The
code's `std` is the square root of `std_sq` (kept squared here since the
square root of a rational is irrational in general). -/
structure StatsQ where
  mean : Option ℚ
  std_sq : Option ℚ
  max : Option ℚ
  min : Option ℚ
deriving DecidableEq

/-- Arithmetic mean of a series. -/
def listMean (l : List ℚ) : ℚ :=
  l.sum / l.length

/-- Square of the sample standard deviation with `ddof = 1`
(`pandas.Series.std`); NaN — `none` — when fewer than two samples. -/
def sampleVarQ (l : List ℚ) : Option ℚ :=
  if l.length < 2 then none
  else some ((l.map (fun x => (x - listMean l) ^ 2)).sum / ((l.length : ℚ) - 1))

/-- `TimestampAnalyzer._calculate_stats`: NaN fields for an empty series,
otherwise mean, std (squared), max and min. -/
def calculateStats : List ℚ → StatsQ
  | [] => ⟨none, none, none, none⟩
  | x :: xs =>
    ⟨some (listMean (x :: xs)), sampleVarQ (x :: xs),
     some (xs.foldl max x), some (xs.foldl min x)⟩

/-- Result record of `BasicStatsAnalyzer.analyze`. -/
structure BasicStatsR where
  mean : ℚ
  std_sq : Option ℚ
  max : ℚ
  min : ℚ
  count : ℕ
deriving DecidableEq

/-- `BasicStatsAnalyzer.analyze` on the `parsed_value` column (modelled as
the list of its numeric values): an empty column yields the empty summary
`none`, otherwise mean, std (squared), max, min and count. -/
def basicStatsAnalyze : List ℚ → Option BasicStatsR
  | [] => none
  | x :: xs =>
    some ⟨listMean (x :: xs), sampleVarQ (x :: xs),
      xs.foldl max x, xs.foldl min x, (x :: xs).length⟩

/-- Summary record of `TimestampAnalyzer.analyze`. -/
structure TimestampSummary where
  specified_frequency_hz : ℚ
  expected_period_s : ℚ
  period_s : StatsQ
  frequency_hz : StatsQ
  jitter_drift_s : StatsQ
deriving DecidableEq

/-- `timestamps_ns.diff().dropna()`: consecutive differences. -/
def diffsNs (l : List ℤ) : List ℤ :=
  (l.zip l.tail).map (fun p => p.2 - p.1)

/-- Python `%` on rationals (sign of the divisor):
`x - T * ⌊x / T⌋`. -/
def fmodQ (x T : ℚ) : ℚ :=
  x - T * ⌊x / T⌋

/-- Per-sample jitter/drift deviations in seconds, with expected period
`T = 1e9 / F` nanoseconds and start `t0` the first timestamp:
`(((t - t0 + T/2) mod T) - T/2) / 1e9`. -/
def deviationsS (F : ℚ) (rows : List ℤ) : List ℚ :=
  let T : ℚ := 1000000000 / F
  match rows with
  | [] => []
  | t0 :: _ =>
    rows.map (fun t : ℤ => (fmodQ ((t : ℚ) - (t0 : ℚ) + T / 2) T - T / 2) / 1000000000)

/-- The frequency sub-series input: `1e9 / period` over the strictly
positive consecutive periods only. -/
def frequencySeries (rows : List ℤ) : List ℚ :=
  ((diffsNs rows).filter (fun p => decide (0 < p))).map
    (fun p : ℤ => (1000000000 : ℚ) / (p : ℚ))

/-- `TimestampAnalyzer.analyze` for a constructed analyzer with target
frequency `F` (construction enforces `0 < F`), on the timestamp column
(already cast to int64): fewer than two rows yield the empty summary
`none`. -/
def timestampAnalyze (F : ℚ) (rows : List ℤ) : Option TimestampSummary :=
  if rows.length < 2 then none
  else
    some
      { specified_frequency_hz := F
        expected_period_s := 1000000000 / F / 1000000000
        period_s := calculateStats ((diffsNs rows).map (fun p : ℤ => (p : ℚ) / 1000000000))
        frequency_hz := calculateStats (frequencySeries rows)
        jitter_drift_s := calculateStats (deviationsS F rows) }

/-! ### Helper lemmas -/

lemma lookupA_insertAssoc {α : Type} (l : List (String × α)) (k : String) (v : α)
    (f : String) :
    lookupA (insertAssoc l k v) f = if f = k then some v else lookupA l f := by
  induction l with
  | nil => simp [insertAssoc, lookupA]
  | cons kv rest ih =>
    obtain ⟨k', v'⟩ := kv
    by_cases hk : k' = k
    · subst hk
      by_cases hf : f = k' <;> simp [insertAssoc, lookupA, hf]
    · by_cases hf : f = k'
      · subst hf
        simp [insertAssoc, lookupA, hk]
      · simp only [insertAssoc, if_neg hk, lookupA, if_neg hf, ih]

lemma lookupA_extractAux (pot : List String) (ps : String) :
    ∀ (fields : List String) (acc : List (String × String)) (f : String),
      lookupA (extractDirectivesAux pot ps fields acc) f =
        if f ∈ fields ∧ pot.contains f = true then some (directiveFor f ps)
        else lookupA acc f := by
  intro fields
  induction fields with
  | nil =>
    intro acc f
    rw [extractDirectivesAux, if_neg]
    rintro ⟨h, -⟩
    exact List.not_mem_nil f h
  | cons g rest ih =>
    intro acc f
    by_cases hg : pot.contains g = true
    · rw [extractDirectivesAux, if_pos hg, ih]
      by_cases hf1 : f ∈ rest ∧ pot.contains f = true
      · rw [if_pos hf1, if_pos ⟨List.mem_cons_of_mem g hf1.1, hf1.2⟩]
      · rw [if_neg hf1, lookupA_insertAssoc]
        by_cases hfg : f = g
        · subst hfg
          rw [if_pos rfl, if_pos ⟨List.mem_cons_self f rest, hg⟩]
        · rw [if_neg hfg, if_neg]
          rintro ⟨hmem, hcont⟩
          rcases List.mem_cons.mp hmem with h | h
          · exact hfg h
          · exact hf1 ⟨h, hcont⟩
    · rw [extractDirectivesAux, if_neg hg, ih]
      by_cases hfg : f = g
      · subst hfg
        have hc1 : ¬(f ∈ rest ∧ pot.contains f = true) := by
          rintro ⟨-, hcont⟩
          exact hg hcont
        have hc2 : ¬(f ∈ f :: rest ∧ pot.contains f = true) := by
          rintro ⟨-, hcont⟩
          exact hg hcont
        rw [if_neg hc1, if_neg hc2]
      · apply if_congr _ rfl rfl
        constructor
        · rintro ⟨hmem, hcont⟩
          exact ⟨List.mem_cons_of_mem g hmem, hcont⟩
        · rintro ⟨hmem, hcont⟩
          rcases List.mem_cons.mp hmem with h | h
          · exact absurd h hfg
          · exact ⟨h, hcont⟩

lemma fmodQ_bounds (x T : ℚ) (hT : 0 < T) : 0 ≤ fmodQ x T ∧ fmodQ x T < T := by
  have hT0 : T ≠ 0 := ne_of_gt hT
  have h1 : fmodQ x T = T * Int.fract (x / T) := by
    rw [fmodQ, Int.fract]
    field_simp
  constructor
  · rw [h1]
    exact mul_nonneg hT.le (Int.fract_nonneg _)
  · rw [h1]
    calc T * Int.fract (x / T) < T * 1 :=
        mul_lt_mul_of_pos_left (Int.fract_lt_one _) hT
      _ = T := mul_one T

lemma foldl_max_mem (x : ℚ) (xs : List ℚ) : xs.foldl max x ∈ x :: xs := by
  induction xs generalizing x with
  | nil => simp
  | cons y ys ih =>
    rw [List.foldl_cons]
    have h := ih (max x y)
    rcases List.mem_cons.mp h with h2 | h2
    · rw [h2]
      rcases max_choice x y with h1 | h1 <;> rw [h1]
      · exact List.mem_cons_self x (y :: ys)
      · exact List.mem_cons_of_mem x (List.mem_cons_self y ys)
    · exact List.mem_cons_of_mem x (List.mem_cons_of_mem y h2)

lemma le_foldl_max (x : ℚ) (xs : List ℚ) : ∀ y ∈ x :: xs, y ≤ xs.foldl max x := by
  induction xs generalizing x with
  | nil =>
    intro y hy
    rw [List.foldl_nil]
    rcases List.mem_cons.mp hy with h | h
    · exact h.le
    · exact absurd h (List.not_mem_nil y)
  | cons z zs ih =>
    intro y hy
    rw [List.foldl_cons]
    have hstep : max x z ≤ zs.foldl max (max x z) :=
      ih (max x z) (max x z) (List.mem_cons_self _ _)
    rcases List.mem_cons.mp hy with h | h
    · subst h
      exact le_trans (le_max_left y z) hstep
    · rcases List.mem_cons.mp h with h2 | h2
      · subst h2
        exact le_trans (le_max_right x y) hstep
      · exact ih (max x z) y (List.mem_cons_of_mem _ h2)

lemma foldl_min_mem (x : ℚ) (xs : List ℚ) : xs.foldl min x ∈ x :: xs := by
  induction xs generalizing x with
  | nil => simp
  | cons y ys ih =>
    rw [List.foldl_cons]
    have h := ih (min x y)
    rcases List.mem_cons.mp h with h2 | h2
    · rw [h2]
      rcases min_choice x y with h1 | h1 <;> rw [h1]
      · exact List.mem_cons_self x (y :: ys)
      · exact List.mem_cons_of_mem x (List.mem_cons_self y ys)
    · exact List.mem_cons_of_mem x (List.mem_cons_of_mem y h2)

lemma foldl_min_le (x : ℚ) (xs : List ℚ) : ∀ y ∈ x :: xs, xs.foldl min x ≤ y := by
  induction xs generalizing x with
  | nil =>
    intro y hy
    rw [List.foldl_nil]
    rcases List.mem_cons.mp hy with h | h
    · exact h.ge
    · exact absurd h (List.not_mem_nil y)
  | cons z zs ih =>
    intro y hy
    rw [List.foldl_cons]
    have hstep : zs.foldl min (min x z) ≤ min x z :=
      ih (min x z) (min x z) (List.mem_cons_self _ _)
    rcases List.mem_cons.mp hy with h | h
    · subst h
      exact le_trans hstep (min_le_left y z)
    · rcases List.mem_cons.mp h with h2 | h2
      · subst h2
        exact le_trans hstep (min_le_right x y)
      · exact ih (min x z) y (List.mem_cons_of_mem _ h2)

/-! ### Claim theorems -/

/-- C9: if slicing the raw value at `[start, start+length)` yields fewer
than `length` bytes, the byte directive returns `None` and the row is
skipped — `process_message` returns `None` rather than raising; in
particular `byte:0-4,type:uint32` on a 3-byte input yields a skipped
row. -/
theorem short_byte_slice_is_skip (bs : List ℕ) (start len : ℕ) (tname : Option String)
    (h : ((bs.drop start).take len).length < len) :
    byteRangeApply (.bytes bs) start len tname = .ok none ∧
    applyDirective (.bytes [1, 2, 3]) "byte:0-4,type:uint32" = .ok none ∧
    processMessage (mkTaskProcessor ⟨"t9", "topic", "a", "a(byte:0-4,type:uint32)"⟩) 0
      (.obj [("a", .bytes [1, 2, 3])]) = .ok none := by
  refine ⟨?_, rfl, rfl⟩
  simp only [byteRangeApply, decodeSlice, if_pos h]

/-- Witness for C9: the 3-byte input with `byte:0-4` has a short slice. -/
theorem short_byte_slice_is_skip_witness :
    ((([1, 2, 3] : List ℕ).drop 0).take 4).length < 4 ∧
    byteRangeApply (.bytes [1, 2, 3]) 0 4 (some "uint32") = .ok none :=
  ⟨by decide, (short_byte_slice_is_skip [1, 2, 3] 0 4 (some "uint32") (by decide)).1⟩

/-- C10: a byte directive applied to a raw value that is not bytes, a
list or an array (a number, a string, an object) returns `None` with a
logged warning, and `process_message` skips the row for that message
only instead of raising. -/
theorem byte_directive_on_non_sequence_skips :
    (∀ (q : ℚ) (start len : ℕ) (t : Option String),
       byteRangeApply (.num q) start len t = .ok none) ∧
    (∀ (s : String) (start len : ℕ) (t : Option String),
       byteRangeApply (.str s) start len t = .ok none) ∧
    (∀ (fs : List (String × PyVal)) (start len : ℕ) (t : Option String),
       byteRangeApply (.obj fs) start len t = .ok none) ∧
    processMessage (mkTaskProcessor ⟨"t10", "topic", "a", "a(byte:0-4,type:uint32)"⟩) 0
      (.obj [("a", .num 7)]) = .ok none :=
  ⟨fun _ _ _ _ => rfl, fun _ _ _ _ => rfl, fun _ _ _ _ => rfl, rfl⟩

/-- C3 counterexample: a task whose parse string carries an unsupported
`type_name` in a ByteRange directive is constructed without any error —
the bad directive is stored verbatim — and the `ValueError` is raised
only when a message is processed. -/
theorem unsupported_byte_type_accepted_at_construction :
    (mkTaskProcessor ⟨"t3", "topic", "a", "a(byte:0-4,type:bad)"⟩).directives =
      [("a", "byte:0-4,type:bad")] ∧
    processMessage (mkTaskProcessor ⟨"t3", "topic", "a", "a(byte:0-4,type:bad)"⟩) 0
      (.obj [("a", .bytes [1, 2, 3, 4])]) =
      .error "Unsupported type 'bad' specified in 'byte' directive." :=
  ⟨rfl, rfl⟩

/-- C3 (amended): task construction performs no directive validation —
it only stores the extracted directive strings — and an unsupported
`type_name` raises a `ValueError` at per-message processing time, when
the byte directive is applied to a slice of the requested length. -/
theorem unsupported_byte_type_raises_at_apply (bs : List ℕ) (start len : ℕ)
    (tname : String) (hname : formatMap tname = none)
    (hlen : ((bs.drop start).take len).length = len) :
    (∀ t : AnalysisTask, (mkTaskProcessor t).directives =
       extractDirectives ((pySplit t.field_names ",").map pyStrip) t.parse_string) ∧
    byteRangeApply (.bytes bs) start len (some tname) =
      .error ("Unsupported type '" ++ tname ++ "' specified in 'byte' directive.") := by
  refine ⟨fun t => rfl, ?_⟩
  simp only [byteRangeApply, decodeSlice, hlen, lt_irrefl, if_false, hname]

/-- Witness for C3's amended theorem: `type:bad` on a 4-byte slice. -/
theorem unsupported_byte_type_raises_at_apply_witness :
    formatMap "bad" = none ∧ ((([1, 2, 3, 4] : List ℕ).drop 0).take 4).length = 4 ∧
    byteRangeApply (.bytes [1, 2, 3, 4]) 0 4 (some "bad") =
      .error ("Unsupported type '" ++ "bad" ++ "' specified in 'byte' directive.") :=
  ⟨rfl, by decide,
   (unsupported_byte_type_raises_at_apply [1, 2, 3, 4] 0 4 "bad" rfl (by decide)).2⟩

/-- C4 counterexample: with `field_names = "a, b"` and parse string `"a"`,
the field `b` — absent from the parse string — receives no directive at
all (the claim expects `Default`), and consequently every message is
skipped for that task. -/
theorem unreferenced_field_has_no_directive :
    lookupA (mkTaskProcessor ⟨"t4", "topic", "a, b", "a"⟩).directives "b" = none ∧
    lookupA (mkTaskProcessor ⟨"t4", "topic", "a, b", "a"⟩).directives "a" = some "default" ∧
    processMessage (mkTaskProcessor ⟨"t4", "topic", "a, b", "a"⟩) 0
      (.obj [("a", .num 1), ("b", .num 2)]) = .ok none :=
  ⟨rfl, rfl, rfl⟩

/-- C4 (amended): a configured field that occurs among the parse string's
identifiers resolves to exactly one directive — the captured text of the
first `name(...)` occurrence, else `default` — while a configured field
that does not occur in the parse string gets no directive. -/
theorem directive_resolution_characterization (fields : List String) (ps : String)
    (f : String) (hf : f ∈ fields) :
    (f ∈ findIdents ps →
       lookupA (extractDirectives fields ps) f = some (directiveFor f ps)) ∧
    (f ∉ findIdents ps → lookupA (extractDirectives fields ps) f = none) := by
  constructor
  · intro hmem
    rw [extractDirectives, lookupA_extractAux,
      if_pos ⟨hf, List.elem_iff.mpr hmem⟩]
  · intro hnot
    rw [extractDirectives, lookupA_extractAux, if_neg]
    · rfl
    · rintro ⟨-, hcont⟩
      exact hnot (List.elem_iff.mp hcont)

/-- Witness for C4's amended theorem: fields `a, b` with parse string
`a`; the referenced field resolves to `default`, the unreferenced one to
nothing. -/
theorem directive_resolution_characterization_witness :
    lookupA (extractDirectives ["a", "b"] "a") "a" = some (directiveFor "a" "a") ∧
    lookupA (extractDirectives ["a", "b"] "a") "b" = none :=
  ⟨(directive_resolution_characterization ["a", "b"] "a" "a" (by simp)).1
     (by rw [show findIdents "a" = ["a"] from rfl]; simp),
   (directive_resolution_characterization ["a", "b"] "a" "b" (by simp)).2
     (by rw [show findIdents "a" = ["a"] from rfl]; simp)⟩

/-- C5 counterexample: for the parse string `(field_a + field_b) * 2`
the constructed bare expression is `" * 2"` — the grouping parenthesis
is deleted together with its contents, the field names are not retained —
and on a message with `field_a = 1`, `field_b = 2` the row's
`parsed_value` is `None` (evaluation failed) instead of `6`. -/
theorem grouping_parens_stripped_with_contents :
    (mkTaskProcessor ⟨"t5", "topic", "field_a, field_b", "(field_a + field_b) * 2"⟩).expression =
      " * 2" ∧
    processMessage
      (mkTaskProcessor ⟨"t5", "topic", "field_a, field_b", "(field_a + field_b) * 2"⟩) 0
      (.obj [("field_a", .num 1), ("field_b", .num 2)]) =
      .ok (some ⟨0, [("raw_field_a", some (.num 1)), ("raw_field_b", some (.num 2))], none⟩) :=
  ⟨rfl, rfl⟩

lemma stripLoop_closes (b : List Char) :
    ∀ (d buf : List Char), ')' ∉ d → (d ≠ [] ∨ buf ≠ []) →
      stripLoop (some buf) (d ++ ')' :: b) = stripLoop none b := by
  intro d
  induction d with
  | nil =>
    intro buf h2 h3
    rcases h3 with h | h
    · exact absurd rfl h
    · simp [stripLoop, h]
  | cons c d' ih =>
    intro buf h2 h3
    have hc : ¬(c = ')') := fun h => h2 (h ▸ List.mem_cons_self c d')
    simp only [List.cons_append, stripLoop, if_neg hc]
    exact ih (c :: buf) (fun h => h2 (List.mem_cons_of_mem c h)) (Or.inr (by simp))

/-- C5 (amended): producing the bare expression deletes every
parenthesized group (an `(`, at least one non-`)` character, then `)`)
from the parse string: a per-field directive annotation is stripped with
the surrounding text retained, but an arithmetic grouping parenthesis is
deleted together with its entire contents, so `(field_a + field_b) * 2`
becomes `" * 2"` and does not evaluate as written. -/
theorem strip_deletes_every_closed_group (a d b : List Char)
    (ha : '(' ∉ a) (hd : d ≠ []) (hd2 : ')' ∉ d) :
    stripLoop none (a ++ '(' :: (d ++ ')' :: b)) = a ++ stripLoop none b := by
  induction a with
  | nil =>
    simp only [List.nil_append]
    rw [show stripLoop none ('(' :: (d ++ ')' :: b)) = stripLoop (some []) (d ++ ')' :: b) by
      simp [stripLoop]]
    exact stripLoop_closes b d [] hd2 (Or.inl hd)
  | cons x a' ih =>
    have hx : ¬(x = '(') := fun h => ha (h ▸ List.mem_cons_self x a')
    simp only [List.cons_append, stripLoop, if_neg hx]
    exact congrArg (x :: ·) (ih (fun h => ha (List.mem_cons_of_mem x h)))

/-- Witness for C5's amended theorem: a directive annotation is stripped
while the text around it is retained. -/
theorem strip_deletes_every_closed_group_witness :
    stripLoop none ("field_a".toList ++ '(' :: ("byte:0-4".toList ++ ')' :: " + 2".toList)) =
      "field_a".toList ++ stripLoop none " + 2".toList :=
  strip_deletes_every_closed_group "field_a".toList "byte:0-4".toList " + 2".toList
    (by decide) (by decide) (by decide)

/-- C7: the Timestamp analyzer returns the empty summary (not an error)
on fewer than 2 rows; otherwise its frequency sub-series is `1e9/p`
exactly over the strictly positive consecutive periods `p` (non-positive
periods are excluded without error), and an empty derived sub-series
yields NaN-valued mean/std/max/min fields rather than an error. -/
theorem timestamp_analyze_structure (F : ℚ) (rows : List ℤ) :
    (rows.length < 2 → timestampAnalyze F rows = none) ∧
    (2 ≤ rows.length →
       timestampAnalyze F rows = some
         ⟨F, 1000000000 / F / 1000000000,
          calculateStats ((diffsNs rows).map (fun p : ℤ => (p : ℚ) / 1000000000)),
          calculateStats (frequencySeries rows),
          calculateStats (deviationsS F rows)⟩) ∧
    (∀ x : ℚ, x ∈ frequencySeries rows ↔
       ∃ p : ℤ, p ∈ diffsNs rows ∧ 0 < p ∧ x = 1000000000 / (p : ℚ)) ∧
    calculateStats [] = ⟨none, none, none, none⟩ := by
  refine ⟨?_, ?_, ?_, rfl⟩
  · intro h
    rw [timestampAnalyze, if_pos h]
  · intro h
    rw [timestampAnalyze, if_neg (by omega)]
  · intro x
    simp only [frequencySeries, List.mem_map, List.mem_filter, decide_eq_true_eq]
    constructor
    · rintro ⟨p, ⟨hmem, hpos⟩, rfl⟩
      exact ⟨p, hmem, hpos, rfl⟩
    · rintro ⟨p, hmem, hpos, rfl⟩
      exact ⟨p, ⟨hmem, hpos⟩, rfl⟩

/-- Witness for C7: a one-row input yields the empty summary; a
three-row input with a duplicated timestamp yields a full summary. -/
theorem timestamp_analyze_structure_witness :
    timestampAnalyze 100 [5] = none ∧
    timestampAnalyze 100 [0, 10, 10] = some
      ⟨100, 1000000000 / 100 / 1000000000,
       calculateStats ((diffsNs [0, 10, 10]).map (fun p : ℤ => (p : ℚ) / 1000000000)),
       calculateStats (frequencySeries [0, 10, 10]),
       calculateStats (deviationsS 100 [0, 10, 10])⟩ :=
  ⟨(timestamp_analyze_structure 100 [5]).1 (by norm_num),
   (timestamp_analyze_structure 100 [0, 10, 10]).2.1 (by norm_num)⟩

/-- C8: the BasicStats analyzer returns the arithmetic mean, the sample
standard deviation with `ddof = 1`, the maximum, the minimum and the
count of the `parsed_value` column — on `[1,2,3,4,5]`: mean `3`,
std² `5/2` (so std `≈ 1.581`), max `5`, min `1`, count `5` — and the
empty summary (not an error) on an empty column. -/
theorem basic_stats_values :
    basicStatsAnalyze [] = none ∧
    basicStatsAnalyze [1, 2, 3, 4, 5] = some ⟨3, some (5/2), 5, 1, 5⟩ ∧
    |Real.sqrt (5/2) - 1.581| < 1/500 ∧
    ∀ (x : ℚ) (xs : List ℚ),
      ∃ s, basicStatsAnalyze (x :: xs) = some s ∧
        s.count = (x :: xs).length ∧
        s.mean * ((x :: xs).length : ℚ) = (x :: xs).sum ∧
        s.std_sq = sampleVarQ (x :: xs) ∧
        s.max ∈ x :: xs ∧ s.min ∈ x :: xs ∧
        ∀ y ∈ x :: xs, s.min ≤ y ∧ y ≤ s.max := by
  refine ⟨rfl, by norm_num [basicStatsAnalyze, listMean, sampleVarQ], ?_, ?_⟩
  · have h5 : (0 : ℝ) ≤ 5/2 := by norm_num
    have hs := Real.sq_sqrt h5
    have hnn := Real.sqrt_nonneg ((5 : ℝ)/2)
    rw [abs_lt]
    constructor <;> nlinarith [hs, hnn]
  · intro x xs
    have hlen : (((x :: xs).length : ℚ)) ≠ 0 := by
      simp [List.length_cons]
      positivity
    refine ⟨_, rfl, rfl, ?_, rfl, foldl_max_mem x xs, foldl_min_mem x xs, ?_⟩
    · rw [listMean, div_mul_cancel₀ _ hlen]
    · intro y hy
      exact ⟨foldl_min_le x xs y hy, le_foldl_max x xs y hy⟩

/-- Witness for C8: the bound on `[1,2,3,4,5]`'s extrema, instantiating
the per-element hypotheses at `5`. -/
theorem basic_stats_values_witness :
    ∃ s, basicStatsAnalyze ((1 : ℚ) :: [2, 3, 4, 5]) = some s ∧ s.min ≤ 5 ∧ 5 ≤ s.max := by
  obtain ⟨s, hs, -, -, -, -, -, hy⟩ := basic_stats_values.2.2.2 1 [2, 3, 4, 5]
  have h5 : (5 : ℚ) ∈ (1 : ℚ) :: [2, 3, 4, 5] := by simp
  exact ⟨s, hs, (hy 5 h5).1, (hy 5 h5).2⟩

/-- C2: for a positive target frequency `F` (expected period
`T = 1e9 / F` ns, start `t0` the first timestamp), the Timestamp
analyzer's per-sample deviation is `((t − t0 + T/2) mod T) − T/2`
converted to seconds, and every computed jitter value lies in
`[−T/2, +T/2)` (scaled to seconds). -/
theorem jitter_formula_and_bounds (F : ℚ) (hF : 0 < F) (t0 : ℤ) (rest : List ℤ)
    (v : ℚ) (hv : v ∈ deviationsS F (t0 :: rest)) :
    deviationsS F (t0 :: rest) =
      (t0 :: rest).map (fun t : ℤ =>
        (fmodQ ((t : ℚ) - (t0 : ℚ) + 1000000000 / F / 2) (1000000000 / F) -
          1000000000 / F / 2) / 1000000000) ∧
    -(1000000000 / F / 2) / 1000000000 ≤ v ∧
    v < (1000000000 / F / 2) / 1000000000 ∧
    (∀ s, timestampAnalyze F (t0 :: rest) = some s →
       s.jitter_drift_s = calculateStats (deviationsS F (t0 :: rest))) := by
  have hT : 0 < (1000000000 : ℚ) / F := by positivity
  simp only [deviationsS] at hv
  obtain ⟨t, ht, rfl⟩ := List.mem_map.mp hv
  obtain ⟨hm0, hm1⟩ :=
    fmodQ_bounds ((t : ℚ) - (t0 : ℚ) + 1000000000 / F / 2) (1000000000 / F) hT
  refine ⟨rfl, ?_, ?_, ?_⟩
  · rw [div_le_div_iff_of_pos_right (by norm_num : (0 : ℚ) < 1000000000)]
    linarith
  · rw [div_lt_div_iff_of_pos_right (by norm_num : (0 : ℚ) < 1000000000)]
    linarith
  · intro s hs
    by_cases hlen : (t0 :: rest).length < 2
    · rw [timestampAnalyze, if_pos hlen] at hs
      exact absurd hs (by simp)
    · rw [timestampAnalyze, if_neg hlen] at hs
      rw [← Option.some.inj hs]

/-- Witness for C2: at `F = 100` Hz on the rows `[0, 19500000]` the
second sample's deviation is `−0.0005` s, inside the bounds. -/
theorem jitter_formula_and_bounds_witness :
    0 < (100 : ℚ) ∧ (-1/2000 : ℚ) ∈ deviationsS 100 (0 :: [19500000]) ∧
    -(1000000000 / 100 / 2) / 1000000000 ≤ (-1/2000 : ℚ) ∧
    (-1/2000 : ℚ) < (1000000000 / 100 / 2) / 1000000000 := by
  have hmem : (-1/2000 : ℚ) ∈ deviationsS 100 (0 :: [19500000]) := by
    norm_num [deviationsS, fmodQ]
  have h := jitter_formula_and_bounds 100 (by norm_num) 0 [19500000] (-1/2000) hmem
  exact ⟨by norm_num, hmem, h.2.1, h.2.2.1⟩

/-- C1 counterexample: for the task with field `a` and parse string
`a + b` (the expression references the undeclared identifier `b`),
`process_message` on a message with `a = 1` does not return `None`: it
returns a row whose `parsed_value` is `None`, and the dispatcher appends
that row to the task's result. -/
theorem row_kept_despite_eval_failure :
    processMessage (mkTaskProcessor ⟨"t1", "topic", "a", "a + b"⟩) 0
      (.obj [("a", .num 1)]) =
      .ok (some ⟨0, [("raw_a", some (.num 1))], none⟩) ∧
    lookupA
      (processFiles [mkTaskProcessor ⟨"t1", "topic", "a", "a + b"⟩]
        [.ok [⟨"topic", 0, .obj [("a", .num 1)]⟩]]) "t1" =
      some [⟨0, [("raw_a", some (.num 1))], none⟩] :=
  ⟨rfl, rfl⟩

lemma processFields_some_iff (tp : TaskProcessor) (msg : PyVal) :
    ∀ (fields : List String) (raws : List (String × Option PyVal)) (env : Env),
      (∃ out, processFields tp msg fields raws env = .ok (some out)) ↔
      (∀ f ∈ fields, ∃ raw d pv, getFieldValue msg f = .ok (some raw) ∧
         lookupA tp.directives f = some d ∧ applyDirective raw d = .ok (some pv)) := by
  intro fields
  induction fields with
  | nil =>
    intro raws env
    constructor
    · intro _ f hf
      exact absurd hf (List.not_mem_nil f)
    · intro _
      exact ⟨(raws, env), rfl⟩
  | cons f rest ih =>
    intro raws env
    constructor
    · rintro ⟨out, hout⟩
      cases hgf : getFieldValue msg f with
      | error e =>
        simp only [processFields, hgf] at hout
        exact absurd hout (by simp)
      | ok raw? =>
        cases raw? with
        | none =>
          simp only [processFields, hgf] at hout
          exact absurd hout (by simp)
        | some raw =>
          cases hd : lookupA tp.directives f with
          | none =>
            simp only [processFields, hgf, hd] at hout
            exact absurd hout (by simp)
          | some d =>
            cases had : applyDirective raw d with
            | error e =>
              simp only [processFields, hgf, hd, had] at hout
              exact absurd hout (by simp)
            | ok pv? =>
              cases pv? with
              | none =>
                simp only [processFields, hgf, hd, had] at hout
                exact absurd hout (by simp)
              | some pv =>
                simp only [processFields, hgf, hd, had] at hout
                intro g hg
                rcases List.mem_cons.mp hg with hgf2 | hg2
                · subst hgf2
                  exact ⟨raw, d, pv, hgf, hd, had⟩
                · exact (ih _ _).mp ⟨out, hout⟩ g hg2
    · intro hall
      obtain ⟨raw, d, pv, hgf, hd, had⟩ := hall f (List.mem_cons_self f rest)
      obtain ⟨out, hout⟩ :=
        (ih (insertAssoc raws ("raw_" ++ f) (some raw))
          (insertAssoc env (safeFieldName f) pv)).mpr
          (fun g hg => hall g (List.mem_cons_of_mem f hg))
      refine ⟨out, ?_⟩
      simp only [processFields, hgf, hd, had]
      exact hout

/-- C1 (amended): `process_message` returns a row exactly when every
configured field resolves to a raw value, has a directive, and coerces
successfully; expression-evaluation failure (such as an undeclared
identifier) does not suppress the row — the row is returned with the
evaluation result, `None` included, as its `parsed_value`. -/
theorem row_iff_fields_resolve_and_coerce (tp : TaskProcessor) (ts : ℤ) (msg : PyVal) :
    ((∃ row, processMessage tp ts msg = .ok (some row)) ↔
      (∀ f ∈ tp.field_names, ∃ raw d pv, getFieldValue msg f = .ok (some raw) ∧
         lookupA tp.directives f = some d ∧ applyDirective raw d = .ok (some pv))) ∧
    (∀ raws env, processFields tp msg tp.field_names [] [] = .ok (some (raws, env)) →
       processMessage tp ts msg = .ok (some ⟨ts, raws, evalExpr (safeExpression tp) env⟩)) := by
  constructor
  · rw [← processFields_some_iff tp msg tp.field_names [] []]
    constructor
    · rintro ⟨row, hrow⟩
      cases hpf : processFields tp msg tp.field_names [] [] with
      | error e =>
        rw [processMessage, hpf] at hrow
        exact absurd hrow (by simp)
      | ok out? =>
        cases out? with
        | none =>
          rw [processMessage, hpf] at hrow
          exact absurd hrow (by simp)
        | some out =>
          exact ⟨out, rfl⟩
    · rintro ⟨⟨raws, env⟩, hpf⟩
      exact ⟨_, by rw [processMessage, hpf]⟩
  · intro raws env hpf
    rw [processMessage, hpf]

/-- Witness for C1's amended theorem: a task whose single field resolves
and coerces produces a row. -/
theorem row_iff_fields_resolve_and_coerce_witness :
    ∃ row, processMessage (mkTaskProcessor ⟨"t1w", "topic", "x", "x + 1"⟩) 0
      (.obj [("x", .num 3)]) = .ok (some row) := by
  apply (row_iff_fields_resolve_and_coerce (mkTaskProcessor ⟨"t1w", "topic", "x", "x + 1"⟩)
    0 (.obj [("x", .num 3)])).1.mpr
  intro f hf
  rw [show (mkTaskProcessor ⟨"t1w", "topic", "x", "x + 1"⟩).field_names = ["x"] from rfl] at hf
  rw [List.mem_singleton.mp hf]
  exact ⟨.num 3, "default", .num 3, rfl, rfl, rfl⟩

/-- C6: a message on a topic with two registered tasks is delivered to
both processors; one processor's per-message failure (its `None` result)
does not prevent the other's row from being recorded for that same
message; and a file whose read fails is skipped while every other file
is still processed, partial results retained. -/
theorem dispatcher_two_tasks_and_file_skip (p1 p2 : TaskProcessor) (t : String)
    (ts : ℤ) (msg : PyVal) (r : Row)
    (ht1 : p1.topic_name = t) (ht2 : p2.topic_name = t)
    (hids : p1.task_id ≠ p2.task_id)
    (h1 : processMessage p1 ts msg = .ok none)
    (h2 : processMessage p2 ts msg = .ok (some r)) :
    lookupA (topicToProcessors [p1, p2]) t = some [p1, p2] ∧
    lookupA (processFiles [p1, p2] [.ok [⟨t, ts, msg⟩]]) p2.task_id = some [r] ∧
    lookupA (processFiles [p1, p2] [.ok [⟨t, ts, msg⟩]]) p1.task_id = some [] ∧
    (∀ (ps : List TaskProcessor) (fs1 fs2 : List FileData) (e : String),
       processFiles ps (fs1 ++ .error e :: fs2) = processFiles ps (fs1 ++ fs2)) := by
  have htm : topicToProcessors [p1, p2] = [(t, [p1, p2])] := by
    simp [topicToProcessors, addProc, ht1, ht2]
  have hinit : initResults [p1, p2] = [(p1.task_id, []), (p2.task_id, [])] := by
    simp [initResults, insertAssoc, hids]
  have hres : processFiles [p1, p2] [.ok [⟨t, ts, msg⟩]] =
      [(p1.task_id, []), (p2.task_id, [r])] := by
    simp only [processFiles, List.foldl_cons, List.foldl_nil, hinit, htm,
      processMessages, dispatchList, lookupA, if_pos rfl, Option.getD_some, h1, h2,
      appendRow, if_neg hids, if_true, List.nil_append]
  refine ⟨by rw [htm]; simp [lookupA], ?_, ?_, ?_⟩
  · rw [hres]
    simp [lookupA, Ne.symm hids]
  · rw [hres]
    simp [lookupA]
  · intro ps fs1 fs2 e
    simp only [processFiles, List.foldl_append, List.foldl_cons]

/-- Witness for C6: a task whose field is absent from the message skips
it, while the second task registered on the same topic still records its
row for that message. -/
theorem dispatcher_two_tasks_and_file_skip_witness :
    lookupA (topicToProcessors [mkTaskProcessor ⟨"task1", "top", "a", "a"⟩,
        mkTaskProcessor ⟨"task2", "top", "x", "x"⟩]) "top" =
      some [mkTaskProcessor ⟨"task1", "top", "a", "a"⟩,
        mkTaskProcessor ⟨"task2", "top", "x", "x"⟩] ∧
    lookupA (processFiles [mkTaskProcessor ⟨"task1", "top", "a", "a"⟩,
        mkTaskProcessor ⟨"task2", "top", "x", "x"⟩]
        [.ok [⟨"top", 0, .obj [("x", .num 3)]⟩]]) "task2" =
      some [⟨0, [("raw_x", some (.num 3))], some (.num 3)⟩] :=
  ⟨(dispatcher_two_tasks_and_file_skip
      (mkTaskProcessor ⟨"task1", "top", "a", "a"⟩)
      (mkTaskProcessor ⟨"task2", "top", "x", "x"⟩)
      "top" 0 (.obj [("x", .num 3)]) ⟨0, [("raw_x", some (.num 3))], some (.num 3)⟩
      rfl rfl (by decide) rfl rfl).1,
   (dispatcher_two_tasks_and_file_skip
      (mkTaskProcessor ⟨"task1", "top", "a", "a"⟩)
      (mkTaskProcessor ⟨"task2", "top", "x", "x"⟩)
      "top" 0 (.obj [("x", .num 3)]) ⟨0, [("raw_x", some (.num 3))], some (.num 3)⟩
      rfl rfl (by decide) rfl rfl).2.1⟩

end McapAnalyzer
